import Mathlib

/-!
Verification development for the `notiondb-to-figma` repository.

The repository is a Figma widget that mirrors a Notion database into a local
table (columns, rows of decoded cell strings), derives a filtered → sorted →
grouped view for display, and writes single-cell edits back to Notion through
a forwarding proxy.

The definitions below are a shallow embedding of the widget's core logic:
* `notion-parsers.ts` — `richTextToStr`, `parseNotionColumns`,
  `mergeSchemaOptions`, `parseNotionProperties`, `buildNotionPropertyUpdate`,
  `formatCellForDisplay`;
* `code.tsx` — `normalizeDatabaseId`, `fetchFromNotion`, `saveCellEdit`,
  `getFilteredRows`, `getCellSortValue`, `getSortedRows`, `getGroupedRows`.

JavaScript strings are modelled by Lean `String` (a list of characters,
compared code-point-wise), JavaScript numbers by `Rat` (exact rationals; NaN
is modelled by `Option.none` at the points where the source checks `isNaN`,
and the IEEE `Infinity` value is outside the model, noted where relevant).
String-level primitives used by the source (`trim`, `toLowerCase`,
`includes`, `slice`, `split`, `parseFloat`, `Number`, the hex-block regex)
are embedded as the explicit character-list functions below.
-/

namespace NotionWidget

/-! ### JavaScript string primitives -/

/-- Pairs of ASCII upper/lower case letters, used to model
`String.prototype.toLowerCase` (the identifiers handled by the widget are
ASCII; non-ASCII characters pass through unchanged). -/
def upperLowerTable : List (Char × Char) :=
  [('A','a'), ('B','b'), ('C','c'), ('D','d'), ('E','e'), ('F','f'),
   ('G','g'), ('H','h'), ('I','i'), ('J','j'), ('K','k'), ('L','l'),
   ('M','m'), ('N','n'), ('O','o'), ('P','p'), ('Q','q'), ('R','r'),
   ('S','s'), ('T','t'), ('U','u'), ('V','v'), ('W','w'), ('X','x'),
   ('Y','y'), ('Z','z')]

/-- Lower-case one character (model of JS `toLowerCase` per character). -/
def lowerChar (c : Char) : Char :=
  match upperLowerTable.find? (fun p => p.1 == c) with
  | some p => p.2
  | none => c

/-- Model of `s.toLowerCase()`. -/
def strLower (s : String) : String :=
  String.mk (s.data.map lowerChar)

/-- Whitespace recognised by JS `trim`. -/
def isWsJs (c : Char) : Bool :=
  c == ' ' || c == '\t' || c == '\n' || c == '\r' || c == '\x0b' || c == '\x0c'

/-- Drop whitespace from the end of a character list. -/
def dropEndWs (cs : List Char) : List Char :=
  ((cs.reverse.dropWhile isWsJs)).reverse

/-- Model of `s.trim()` on character lists. -/
def trimChars (cs : List Char) : List Char :=
  dropEndWs (cs.dropWhile isWsJs)

/-- Model of `s.trim()`. -/
def strTrim (s : String) : String :=
  String.mk (trimChars s.data)

/-- Whether `sub` occurs as a contiguous block inside `s`
(model of `String.prototype.includes` on character lists). -/
def charsContain (s sub : List Char) : Bool :=
  match s with
  | [] => sub.isEmpty
  | _ :: t => sub.isPrefixOf s || charsContain t sub

/-- Model of `s.includes(sub)`. -/
def strContains (s sub : String) : Bool :=
  charsContain s.data sub.data

/-- Model of `s.slice(0, n)`. -/
def strTake (s : String) (n : Nat) : String :=
  String.mk (s.data.take n)

/-- JS code-unit-wise string comparison `a < b` (lexicographic on
code points; the widget's data is BMP text, where the two orders agree). -/
def charsLt : List Char → List Char → Bool
  | [], [] => false
  | [], _ :: _ => true
  | _ :: _, [] => false
  | a :: as, b :: bs => if a < b then true else if b < a then false else charsLt as bs

/-- Model of JS `a < b` on strings. -/
def strLt (a b : String) : Bool :=
  charsLt a.data b.data

/-- Split a character list at every occurrence of `sep`
(model of `String.prototype.split` with a one-character separator). -/
def splitOnChar (sep : Char) : List Char → List (List Char)
  | [] => [[]]
  | c :: t =>
    let r := splitOnChar sep t
    if c == sep then [] :: r
    else
      match r with
      | h :: t2 => (c :: h) :: t2
      | [] => [[c]]

/-! ### JavaScript numeric primitives -/

/-- Decimal digit characters. -/
def digitChars : List Char := ['0','1','2','3','4','5','6','7','8','9']

/-- The character for one decimal digit. -/
def digitChar (d : Nat) : Char := digitChars.getD d '0'

/-- Value of a list of decimal digit characters. -/
def digitsToNat (ds : List Char) : Nat :=
  ds.foldl (fun a c => a * 10 + (c.toNat - 48)) 0

/-- Value of a list of hexadecimal digit characters. -/
def hexDigitsToNat (ds : List Char) : Nat :=
  ds.foldl (fun a c =>
    a * 16 + (if c.isDigit then c.toNat - 48
              else if 'a' ≤ c && c ≤ 'f' then c.toNat - 87
              else c.toNat - 55)) 0

/-- Decimal digit list of a natural number, driven by a fuel argument so
that the recursion is structural (the fuel `n + 1` always suffices since
the argument shrinks by a factor of ten each step). -/
def natDigitsAux : Nat → Nat → List Char
  | 0, _ => []
  | fuel + 1, n =>
    if n < 10 then [digitChar n]
    else natDigitsAux fuel (n / 10) ++ [digitChar (n % 10)]

/-- Decimal digit list of a natural number (no sign, no separators). -/
def natDigits (n : Nat) : List Char := natDigitsAux (n + 1) n

/-- Decimal rendering of a natural number. -/
def natToStr (n : Nat) : String := String.mk (natDigits n)

/-- Decimal rendering of an integer. -/
def intToStr (i : Int) : String :=
  if i < 0 then String.mk ('-' :: natDigits i.natAbs) else natToStr i.natAbs

/-- The rational `m * 10 ^ e` built with kernel-computable primitives
(the decimal-literal values of the JS number models). -/
def ratScaled (m : Int) (e : Int) : Rat :=
  if 0 ≤ e then mkRat (m * ((10 ^ e.toNat : Nat) : Int)) 1
  else mkRat m ((10 : Nat) ^ (-e).toNat)

/-- Model of JS `parseFloat`: skip leading whitespace, read an optional
sign, then the longest prefix of the form `digits [. digits] [e sign digits]`;
`none` models `NaN` (no digits at all).  The `Infinity` literal is outside the
rational model and is treated as unparseable. -/
def parseFloatJs (s : String) : Option Rat :=
  let cs := s.data.dropWhile isWsJs
  let signed : Int × List Char :=
    match cs with
    | '-' :: t => (-1, t)
    | '+' :: t => (1, t)
    | _ => (1, cs)
  let sign := signed.1
  let cs1 := signed.2
  let ip := cs1.takeWhile Char.isDigit
  let r1 := cs1.drop ip.length
  let fparts : List Char × List Char :=
    match r1 with
    | '.' :: t => (t.takeWhile Char.isDigit, t.drop (t.takeWhile Char.isDigit).length)
    | _ => ([], r1)
  let fp := fparts.1
  let r2 := fparts.2
  if ip.isEmpty && fp.isEmpty then none
  else
    let expo : Int :=
      match r2 with
      | e :: t =>
        if e == 'e' || e == 'E' then
          let esigned : Int × List Char :=
            match t with
            | '-' :: u => (-1, u)
            | '+' :: u => (1, u)
            | _ => (1, t)
          let ed := esigned.2.takeWhile Char.isDigit
          if ed.isEmpty then 0 else esigned.1 * (digitsToNat ed : Int)
        else 0
      | [] => 0
    some (ratScaled (sign * (digitsToNat (ip ++ fp) : Int)) (expo - fp.length))

/-- Full-string unsigned decimal literal (helper for the `Number` model):
`digits [. digits] [e sign digits]`, all characters consumed. -/
def parseDecAll (cs : List Char) : Option Rat :=
  let ip := cs.takeWhile Char.isDigit
  let r1 := cs.drop ip.length
  let fparts : List Char × List Char :=
    match r1 with
    | '.' :: t => (t.takeWhile Char.isDigit, t.drop (t.takeWhile Char.isDigit).length)
    | _ => ([], r1)
  let fp := fparts.1
  let r2 := fparts.2
  if ip.isEmpty && fp.isEmpty then none
  else
    let m : Int := (digitsToNat (ip ++ fp) : Int)
    match r2 with
    | [] => some (ratScaled m (0 - fp.length))
    | e :: t =>
      if e == 'e' || e == 'E' then
        let esigned : Int × List Char :=
          match t with
          | '-' :: u => (-1, u)
          | '+' :: u => (1, u)
          | _ => (1, t)
        let ed := esigned.2.takeWhile Char.isDigit
        if ed.isEmpty || !(esigned.2.drop ed.length).isEmpty then none
        else some (ratScaled m (esigned.1 * (digitsToNat ed : Int) - fp.length))
      else none

/-- Model of JS `Number(s)` (the `ToNumber` conversion on strings):
trim, empty → `0`, radix-prefixed integer literals, otherwise a full-string
signed decimal literal; `none` models `NaN`.  The `Infinity` literal is
outside the rational model and maps to `none` (note: `Infinity` also
serialises to JSON `null`, the same wire value the `none` branch produces
in the write-back payload). -/
def jsNumber (s : String) : Option Rat :=
  let t := trimChars s.data
  if t.isEmpty then some (mkRat 0 1)
  else
    match t with
    | '0' :: x :: rest =>
      if x == 'x' || x == 'X' then
        if !rest.isEmpty && rest.all (fun c => c.isDigit || ('a' ≤ c && c ≤ 'f') || ('A' ≤ c && c ≤ 'F'))
        then some (mkRat (hexDigitsToNat (rest.map lowerChar) : Int) 1) else none
      else if x == 'b' || x == 'B' then
        if !rest.isEmpty && rest.all (fun c => c == '0' || c == '1')
        then some (mkRat (rest.foldl (fun a c => a * 2 + (c.toNat - 48)) 0 : Int) 1) else none
      else if x == 'o' || x == 'O' then
        if !rest.isEmpty && rest.all (fun c => '0' ≤ c && c ≤ '7')
        then some (mkRat (rest.foldl (fun a c => a * 8 + (c.toNat - 48)) 0 : Int) 1) else none
      else parseDecAll t
    | '-' :: rest => (parseDecAll rest).map (fun q => mkRat (-q.num) q.den)
    | '+' :: rest => parseDecAll rest
    | _ => parseDecAll t

/-- Decimal rendering of a rational, modelling JS `String(n)` for the
numeric payload values: exact for integers (the only values the theorems
evaluate); non-integers render as `int.frac` with up to ten fraction digits
(an approximation of JS shortest-round-trip float printing). -/
def ratToStringJs (q : Rat) : String :=
  if q.den = 1 then intToStr q.num
  else
    let sgn : String := if q < 0 then "-" else ""
    let a : Rat := if q < 0 then -q else q
    let ipart : Nat := a.floor.natAbs
    let fracScaled : Nat := ((a - (ipart : Rat)) * 10 ^ 10).floor.natAbs
    let fdigits := (List.range 10).map (fun i => digitChar (fracScaled / 10 ^ (9 - i) % 10))
    let trimmed := (fdigits.reverse.dropWhile (fun c => c == '0')).reverse
    sgn ++ natToStr ipart ++ "." ++ String.mk trimmed

/-- Chunk a reversed digit list into comma-separated groups of three
(helper for the `toLocaleString` model). -/
def groupDigitsRev (l : List Char) : List Char :=
  if l.length ≤ 3 then l
  else l.take 3 ++ [','] ++ groupDigitsRev (l.drop 3)
  termination_by l.length
  decreasing_by simp [List.length_drop]; omega

/-- Insert `,` thousands separators into a digit list (helper for the
`toLocaleString` model). -/
def groupDigits (ds : List Char) : List Char :=
  (groupDigitsRev ds.reverse).reverse

/-- Model of JS `n.toLocaleString()` under an en-US locale: thousands
grouping on the integer part and at most three (half-up rounded) fraction
digits. -/
def ratToLocaleStr (q : Rat) : String :=
  let sgn : String := if q < 0 then "-" else ""
  let a : Rat := if q < 0 then -q else q
  let scaled : Nat := (a * 1000 + 1/2).floor.natAbs
  let ipart := scaled / 1000
  let fpart := scaled % 1000
  let fdigits := [digitChar (fpart / 100), digitChar (fpart / 10 % 10), digitChar (fpart % 10)]
  let ftrimmed := (fdigits.reverse.dropWhile (fun c => c == '0')).reverse
  let ints := String.mk (groupDigits (natDigits ipart))
  if ftrimmed.isEmpty then sgn ++ ints
  else sgn ++ ints ++ "." ++ String.mk ftrimmed

/-! ### Data model (`notion-types.ts`)

Raw remote values arrive as JSON, so every type-specific payload field is
optional (`Option`), matching the null/absence checks the source performs.
A property-map entry whose value is JSON `null` or not an object is
modelled as `none` (the source skips such entries). -/

/-- One rich-text run: `plain_text?`, and `text.content` when present
(`text : Option (Option String)` — outer `none` is an absent `text` object,
inner `none` an absent `content`). -/
structure NotionRichTextItem where
  plain_text : Option String := none
  text : Option (Option String) := none
deriving DecidableEq, Repr

/-- Payload of a `select`/`status` value (`name` nullable in raw data). -/
structure SelectValue where
  name : Option String := none
deriving DecidableEq, Repr

/-- Payload of a `date` value; `endDate` embeds the source's `end` field
(a reserved word in Lean). -/
structure DateValue where
  start : Option String := none
  endDate : Option String := none
deriving DecidableEq, Repr

/-- Payload of a `formula` result. -/
structure FormulaValue where
  string : Option String := none
  number : Option Rat := none
  boolean : Option Bool := none
deriving DecidableEq, Repr

/-- Payload of a `rollup` result; only the length of `array` is ever read,
so its elements are modelled as `Unit`. -/
structure RollupValue where
  number : Option Rat := none
  array : Option (List Unit) := none
deriving DecidableEq, Repr

/-- One `multi_select` option (its `name` is read unconditionally). -/
structure MultiOption where
  name : String
deriving DecidableEq, Repr

/-- One `people` entry (`name` may be absent). -/
structure PersonRef where
  name : Option String := none
deriving DecidableEq, Repr

/-- A typed Notion property value: the `type` tag plus one optional payload
field per supported type, exactly as in `NotionPropertyValue` of
`notion-types.ts`. -/
structure NotionPropertyValue where
  type : String
  title : Option (List NotionRichTextItem) := none
  rich_text : Option (List NotionRichTextItem) := none
  number : Option Rat := none
  select : Option SelectValue := none
  multi_select : Option (List MultiOption) := none
  checkbox : Option Bool := none
  date : Option DateValue := none
  url : Option String := none
  status : Option SelectValue := none
  people : Option (List PersonRef) := none
  formula : Option FormulaValue := none
  rollup : Option RollupValue := none
deriving DecidableEq, Repr

/-- One page (record) of a query response.  A property entry carrying
`none` models a JSON value that is `null` or not an object. -/
structure NotionPage where
  id : String
  properties : List (String × Option NotionPropertyValue)
  created_time : Option String := none
  last_edited_time : Option String := none
deriving DecidableEq, Repr

/-- A select/status option attached to a column after a schema merge. -/
structure SelectOption where
  name : String
  color : Option String := none
deriving DecidableEq, Repr

/-- A derived table column. -/
structure ColumnDef where
  name : String
  propertyName : String
  type : String
  options : Option (List SelectOption) := none
deriving DecidableEq, Repr

/-- One table row: decoded cells keyed by property name. -/
structure RowData where
  pageId : String
  cells : List (String × String)
  created_time : Option String := none
  last_edited_time : Option String := none
deriving DecidableEq, Repr

/-- Schema options carried by the database-retrieve response. -/
structure SchemaOption where
  name : String
  color : Option String := none
deriving DecidableEq, Repr

/-- The `select`/`status` box of one schema property (`options` optional). -/
structure SchemaOptionsBox where
  options : Option (List SchemaOption) := none
deriving DecidableEq, Repr

/-- One property of the database-retrieve response. -/
structure SchemaProp where
  select : Option SchemaOptionsBox := none
  status : Option SchemaOptionsBox := none
deriving DecidableEq, Repr

/-- The database-retrieve (schema) response; a response with no
`properties` object is modelled by passing `none` for the whole schema. -/
structure NotionDatabaseResponse where
  properties : List (String × SchemaProp)
deriving DecidableEq, Repr

/-! ### Field decoding (`notion-parsers.ts`) -/

/-- Model of `Array.prototype.join`. -/
def joinSep (sep : String) : List String → String
  | [] => ""
  | [x] => x
  | x :: xs => x ++ sep ++ joinSep sep xs

/-- Embeds `richTextToStr`: concatenate each run's `plain_text`, falling
back to `text.content`, then to the empty string. -/
def richTextToStr (richText : Option (List NotionRichTextItem)) : String :=
  match richText with
  | none => ""
  | some items =>
    joinSep "" (items.map (fun t =>
      match t.plain_text with
      | some s => s
      | none =>
        match t.text with
        | some content => content.getD ""
        | none => ""))

/-- Embeds `parseNotionColumns`: one column per object-valued entry of the
first page's property map, in map order; empty when there are no pages. -/
def parseNotionColumns (results : List NotionPage) : List ColumnDef :=
  match results with
  | [] => []
  | first :: _ =>
    first.properties.filterMap (fun e =>
      match e.2 with
      | some v => some { name := e.1, propertyName := e.1, type := v.type }
      | none => none)

/-- Embeds `mergeSchemaOptions`.  In the source the candidate options are
`(col.type === "select" && prop.select?.options) ?? (col.type === "status" &&
prop.status?.options)`: for a status column the left operand is `false`,
which is not nullish, so `??` never reaches the status options — only
select columns are ever merged.  The embedding reproduces that. -/
def mergeSchemaOptions (columns : List ColumnDef) (schema : Option NotionDatabaseResponse) :
    List ColumnDef :=
  match schema with
  | none => columns
  | some sch =>
    columns.map (fun col =>
      match sch.properties.lookup col.propertyName with
      | none => col
      | some prop =>
        let opts : List SchemaOption :=
          if col.type == "select" then (prop.select.bind (fun b => b.options)).getD [] else []
        if opts.isEmpty then col
        else
          let merged : List SelectOption :=
            opts.map (fun o => { name := o.name, color := some (o.color.getD "default") })
          { col with options := some merged })

/-- The per-value switch body of `parseNotionProperties` (decode one typed
property value to its display string). -/
def decodeProperty (v : NotionPropertyValue) : String :=
  if v.type == "title" then richTextToStr v.title
  else if v.type == "rich_text" then richTextToStr v.rich_text
  else if v.type == "number" then
    match v.number with
    | some n => ratToStringJs n
    | none => ""
  else if v.type == "select" then
    match v.select with
    | some sel => sel.name.getD ""
    | none => ""
  else if v.type == "multi_select" then
    joinSep ", " ((v.multi_select.getD []).map (fun s => s.name))
  else if v.type == "checkbox" then
    match v.checkbox with
    | some true => "Yes"
    | _ => "No"
  else if v.type == "date" then
    match v.date with
    | some d => d.start.getD ""
    | none => ""
  else if v.type == "url" then v.url.getD ""
  else if v.type == "status" then
    match v.status with
    | some st => st.name.getD ""
    | none => ""
  else if v.type == "people" then
    joinSep ", " (((v.people.getD []).map (fun p => p.name.getD "")).filter (fun s => s != ""))
  else if v.type == "formula" then
    match v.formula with
    | some f =>
      match f.string with
      | some s => s
      | none =>
        match f.number with
        | some n => ratToStringJs n
        | none =>
          match f.boolean with
          | some b => if b then "Yes" else "No"
          | none => ""
    | none => ""
  else if v.type == "rollup" then
    match v.rollup with
    | some r =>
      match r.number with
      | some n => ratToStringJs n
      | none =>
        match r.array with
        | some a => natToStr a.length
        | none => ""
    | none => ""
  else ""

/-- Embeds `parseNotionProperties`: decode every object-valued entry of a
property map, skipping null/non-object entries. -/
def parseNotionProperties (properties : List (String × Option NotionPropertyValue)) :
    List (String × String) :=
  match properties with
  | [] => []
  | (_, none) :: rest => parseNotionProperties rest
  | (key, some v) :: rest => (key, decodeProperty v) :: parseNotionProperties rest

/-- The type tags handled by the `parseNotionProperties` switch (everything
else falls to the `default` branch). -/
def supportedTypes : List String :=
  ["title", "rich_text", "number", "select", "multi_select", "checkbox",
   "date", "url", "status", "people", "formula", "rollup"]

/-- A property value of type `t` whose type-specific payload is null or
absent (every optional field `none`). -/
def emptyValue (t : String) : NotionPropertyValue := { type := t }

/-! ### Write-back mapping (`notion-parsers.ts`) -/

/-- Model of the `/^(1|true|yes)$/i.test(value.trim())` check. -/
def regexBoolJs (value : String) : Bool :=
  let t := String.mk ((trimChars value.data).map lowerChar)
  t == "1" || t == "true" || t == "yes"

/-- Embeds `buildNotionPropertyUpdate`: map (property name, type, plain
value) to the PATCH payload entry, returned as the pair of the property
name and the typed value object.  For `number`, the source computes
`value === "" ? null : Number(value)` and then `isNaN(n) ? null : n`
(and `isNaN(null)` is `false`), so the payload is null exactly when the
value is empty or `Number` yields NaN. -/
def buildNotionPropertyUpdate (propertyName : String) (type : String) (value : String) :
    String × NotionPropertyValue :=
  if type == "title" then
    (propertyName, { type := "title", title := some [{ text := some (some value) }] })
  else if type == "rich_text" then
    (propertyName, { type := "rich_text", rich_text := some [{ text := some (some value) }] })
  else if type == "number" then
    (propertyName, { type := "number",
                     number := if value == "" then none else jsNumber value })
  else if type == "checkbox" then
    (propertyName, { type := "checkbox", checkbox := some (regexBoolJs value) })
  else if type == "date" then
    (propertyName, { type := "date",
                     date := if value == "" then none
                             else some { start := some value, endDate := none } })
  else if type == "url" then
    (propertyName, { type := "url", url := if value == "" then none else some value })
  else if type == "select" then
    (propertyName, { type := "select",
                     select := if value == "" then none else some { name := some value } })
  else if type == "status" then
    (propertyName, { type := "status",
                     status := if value == "" then none else some { name := some value } })
  else
    (propertyName, { type := "rich_text", rich_text := some [{ text := some (some value) }] })

/-! ### Display formatting (`notion-parsers.ts`) -/

/-- Model of `new Date(value)` restricted to the ISO `YYYY-MM-DD` strings
the decoder produces (parsing of other layouts is implementation-defined in
JS and is modelled as unparseable); the result is `(year, month, day)`. -/
def parseDateJs (s : String) : Option (Nat × Nat × Nat) :=
  match splitOnChar '-' s.data with
  | [ys, ms, ds] =>
    if ys.length == 4 && ys.all Char.isDigit && ms.length == 2 && ms.all Char.isDigit
        && ds.length == 2 && ds.all Char.isDigit then
      let m := digitsToNat ms
      let d := digitsToNat ds
      if 1 ≤ m && m ≤ 12 && 1 ≤ d && d ≤ 31 then some (digitsToNat ys, m, d)
      else none
    else none
  | _ => none

/-- Model of `toLocaleDateString()` under an en-US locale: `M/D/YYYY`. -/
def localeDateStr (d : Nat × Nat × Nat) : String :=
  String.mk (natDigits d.2.1 ++ '/' :: natDigits d.2.2 ++ '/' :: natDigits d.1)

/-- Embeds `formatCellForDisplay`: type-specific presentation of a decoded
cell string.  A pure function — the widget applies it only when rendering
and never writes its result back into the stored `cells`. -/
def formatCellForDisplay (type value : String) : String :=
  if value == "" then "—"
  else if type == "checkbox" then
    if regexBoolJs value then "✓" else "—"
  else if type == "date" then
    match parseDateJs value with
    | some d => localeDateStr d
    | none => value
  else if type == "number" then
    match parseFloatJs value with
    | some n => ratToLocaleStr n
    | none => value
  else value

/-- Embeds `isReadOnlyType`. -/
def isReadOnlyType (type : String) : Bool :=
  type == "formula" || type == "rollup" || type == "people"

/-! ### Database-id normalization (`code.tsx`) -/

/-- Whether a character matches the regex class `[a-f0-9]` with the `i`
flag. -/
def isHexChar (c : Char) : Bool :=
  ('0' ≤ c && c ≤ '9') || ('a' ≤ c && c ≤ 'f') || ('A' ≤ c && c ≤ 'F')

/-- Leftmost match of `/([a-f0-9]{32})/i`: the first position at which 32
consecutive hex characters start, returning those 32 characters. -/
def findHex32 : List Char → Option (List Char)
  | [] => none
  | c :: t =>
    if ((c :: t).take 32).length == 32 && ((c :: t).take 32).all isHexChar
    then some ((c :: t).take 32)
    else findHex32 t

/-- Embeds `normalizeDatabaseId` on character lists: trim, extract the
first 32-character hex block (lowercased) when present, otherwise strip
dashes and lowercase. -/
def normalizeIdChars (input : List Char) : List Char :=
  let trimmed := trimChars input
  match findHex32 trimmed with
  | some h => h.map lowerChar
  | none => (trimmed.filter (fun c => c != '-')).map lowerChar

/-- Embeds `normalizeDatabaseId`. -/
def normalizeDatabaseId (input : String) : String :=
  String.mk (normalizeIdChars input.data)

/-! ### Sync orchestration (`code.tsx`) -/

/-- The widget's synced table state: columns, rows, last-synced timestamp
and user-visible error message. -/
structure SyncState where
  columns : List ColumnDef
  rows : List RowData
  lastSynced : String
  error : String
deriving DecidableEq, Repr

/-- The record-query HTTP response as the sync sees it: `ok`/`status`, the
body text (read on failure), and the parsed `results` array on success
(`none` models an absent `results` member — the source falls back to
`[]` via `data.results || []`). -/
structure QueryResponse where
  ok : Bool
  status : Nat
  body : String
  results : Option (List NotionPage) := none
deriving DecidableEq, Repr

/-- Model of `proxyUrl.replace(/\/$/, "")` (drop one trailing slash). -/
def stripTrailingSlash (s : String) : String :=
  match s.data.reverse with
  | '/' :: rest => String.mk rest.reverse
  | _ => s

/-- Result of one full-sync attempt: the new state plus the query URL that
was requested (`none` when the configuration guard failed before any
network call). -/
structure FetchResult where
  state : SyncState
  request : Option String
deriving DecidableEq, Repr

/-- The fixed guidance message used when the query response indicates the
database was not found or not shared. -/
def dbNotFoundMsg : String :=
  "Database not found. Share it with your integration: open the database → ⋯ → Connections → Add → select your integration."

/-- Embeds `fetchFromNotion` (full sync).  Inputs beyond the prior state:
the configured proxy URL and database id, the parsed schema response when
the schema call returned ok (`none` otherwise — a schema failure is
tolerated), the query response, and the current timestamp.  The network
transport itself and the thrown-exception path of the surrounding
`try/catch` (which only sets the error message) are outside the model. -/
def fetchFromNotion (st : SyncState) (proxyUrl databaseId : String)
    (schemaData : Option NotionDatabaseResponse) (queryRes : QueryResponse)
    (now : String) : FetchResult :=
  if strTrim proxyUrl == "" || strTrim databaseId == "" then
    { state := { st with error := "Enter proxy URL and database ID above, then Sync." },
      request := none }
  else
    let st1 : SyncState := { st with error := "" }
    let base := stripTrailingSlash proxyUrl
    let url := base ++ "/notion/databases/" ++ normalizeDatabaseId databaseId ++ "/query"
    if queryRes.ok = false then
      let t := queryRes.body
      let errMsg :=
        if queryRes.status == 404 || strContains t "could not find" || strContains t "locate database"
        then dbNotFoundMsg
        else "Notion API: " ++ natToStr queryRes.status ++ " " ++ strTake t 100
      { state := { st1 with error := errMsg }, request := some url }
    else
      let results := queryRes.results.getD []
      let parsedColumns := mergeSchemaOptions (parseNotionColumns results) schemaData
      let parsedRows : List RowData := results.map (fun page =>
        { pageId := page.id, cells := parseNotionProperties page.properties,
          created_time := page.created_time, last_edited_time := page.last_edited_time })
      { state := { columns := parsedColumns, rows := parsedRows, lastSynced := now, error := "" },
        request := some url }

/-! ### Cell editing (`code.tsx`) -/

/-- The transient in-progress edit (`editingCell` synced state). -/
structure EditingCell where
  pageId : String
  property : String
  columnType : String
  value : String
deriving DecidableEq, Repr

/-- The PATCH response as `saveCellEdit` sees it. -/
structure UpdateResponse where
  ok : Bool
  status : Nat
  body : String
deriving DecidableEq, Repr

/-- Model of the object spread `{ ...cells, [k]: v }`: replace the value
of an existing key in place, otherwise append the new binding at the end
(JS object key order). -/
def setCell : List (String × String) → String → String → List (String × String)
  | [], k, v => [(k, v)]
  | (k0, v0) :: t, k, v =>
    if k0 == k then (k0, v) :: t else (k0, v0) :: setCell t k v

/-- Model of reading `cells[k]`. -/
def cellsGet (cells : List (String × String)) (k : String) : Option String :=
  match cells with
  | [] => none
  | (k0, v0) :: t => if k0 == k then some v0 else cellsGet t k

/-- Result of one `saveCellEdit` run: new rows, new editing-cell slot, new
error message, and the payload sent to the gateway (`none` when no editing
cell was active and nothing was sent). -/
structure CellEditResult where
  rows : List RowData
  editingCell : Option EditingCell
  error : String
  payload : Option (String × NotionPropertyValue)
deriving DecidableEq, Repr

/-- Embeds `saveCellEdit`.  The source clears the editing cell first
(`setEditingCell(null)` before the request), resolves the effective type as
`cell.columnType ?? (col?.type ?? "rich_text")` (the fallbacks are dead
because `columnType` is a non-nullable string in the state shape; the
embedding keeps the resolution), sends the PATCH, and on success patches
exactly the matching rows' one cell; on failure it only sets the error. -/
def saveCellEdit (rows : List RowData) (columns : List ColumnDef)
    (editingCell : Option EditingCell) (prevError : String)
    (newValue : String) (res : UpdateResponse) : CellEditResult :=
  match editingCell with
  | none => { rows := rows, editingCell := none, error := prevError, payload := none }
  | some cell =>
    let _col := columns.find? (fun c => c.propertyName == cell.property)
    let type := cell.columnType
    let payload := buildNotionPropertyUpdate cell.property type newValue
    if res.ok then
      { rows := rows.map (fun row =>
          if row.pageId == cell.pageId then
            { row with cells := setCell row.cells cell.property newValue }
          else row),
        editingCell := none, error := "", payload := some payload }
    else
      { rows := rows, editingCell := none,
        error := "Update failed: " ++ natToStr res.status ++ " " ++ strTake res.body 80,
        payload := some payload }

/-! ### View derivation (`code.tsx`) -/

/-- The view parameters (each a separate `useSyncedState` string in the
source): `sortBy` is `""` or `key:dir`, `groupBy`/`filterColumn` are `""`
or a property name, `filterOp` is one of `contains`/`equals`/`is_empty`/
`is_not_empty`. -/
structure ViewParams where
  sortBy : String := ""
  groupBy : String := ""
  filterColumn : String := ""
  filterOp : String := "contains"
  filterValue : String := ""
deriving DecidableEq, Repr

/-- Embeds `getFilteredRows`. -/
def getFilteredRows (columns : List ColumnDef) (rows : List RowData) (p : ViewParams) :
    List RowData :=
  if p.filterColumn == "" || !(columns.any (fun c => c.propertyName == p.filterColumn)) then rows
  else
    let val := strLower (strTrim p.filterValue)
    let needsValue := p.filterOp != "is_empty" && p.filterOp != "is_not_empty"
    if needsValue && val == "" then rows
    else
      rows.filter (fun row =>
        let cellVal := strLower ((cellsGet row.cells p.filterColumn).getD "")
        let empty := cellVal == "" || cellVal == "—"
        if p.filterOp == "contains" then strContains cellVal val
        else if p.filterOp == "equals" then cellVal == val
        else if p.filterOp == "is_empty" then empty
        else if p.filterOp == "is_not_empty" then !empty
        else true)

/-- Insertion step of the stable-sort model: place `a` before the first
element `b` with `le a b`, after everything else. -/
def insertSorted {α : Type} (le : α → α → Bool) (a : α) : List α → List α
  | [] => [a]
  | b :: t => if le a b then a :: b :: t else b :: insertSorted le a t

/-- Stable sort with respect to a boolean `le` — the model of ECMAScript's
`Array.prototype.sort`, which is specified to be stable; for a consistent
comparator the stable sorted permutation is unique, so any stable sorting
algorithm is an equivalent model. -/
def stableSort {α : Type} (le : α → α → Bool) : List α → List α
  | [] => []
  | a :: t => insertSorted le a (stableSort le t)

/-- A sort key's resolved value: a JS string or a JS number. -/
inductive SortVal
  | str (s : String)
  | num (q : Rat)
deriving DecidableEq, Repr

/-- Embeds `getCellSortValue`: timestamps compare as raw strings; a cell of
a number-typed column as `parseFloat` (NaN → 0); anything else as the
lowercased cell string. -/
def getCellSortValue (columns : List ColumnDef) (row : RowData) (key : String) : SortVal :=
  if key == "created_time" then .str (row.created_time.getD "")
  else if key == "last_edited_time" then .str (row.last_edited_time.getD "")
  else
    let v := (cellsGet row.cells key).getD ""
    match columns.find? (fun c => c.propertyName == key) with
    | some col =>
      if col.type == "number" then .num ((parseFloatJs v).getD 0) else .str (strLower v)
    | none => .str (strLower v)

/-- JS `<` on a string-or-number pair (a mixed pair converts the string
with `ToNumber`, and any NaN comparison is false; within one sort the key
always resolves both sides to the same variant). -/
def sortValLt : SortVal → SortVal → Bool
  | .str a, .str b => strLt a b
  | .num a, .num b => decide (a < b)
  | .str a, .num b =>
    match jsNumber a with
    | some x => decide (x < b)
    | none => false
  | .num a, .str b =>
    match jsNumber b with
    | some y => decide (a < y)
    | none => false

/-- The comparator body of `getSortedRows`: `-1`/`1`/`0` from the two
resolved sort values. -/
def rowCmp (columns : List ColumnDef) (key : String) (a b : RowData) : Int :=
  let va := getCellSortValue columns a key
  let vb := getCellSortValue columns b key
  if sortValLt va vb then -1 else if sortValLt vb va then 1 else 0

/-- The key part of a `key:dir` sort descriptor (first `:`-separated
component, as `sortBy.split(":")` produces it). -/
def sortByKey (sortBy : String) : String :=
  String.mk ((splitOnChar ':' sortBy.data).headD [])

/-- The direction part of a `key:dir` sort descriptor (second component;
`""` models the absent component of a split with fewer parts). -/
def sortByDir (sortBy : String) : String :=
  String.mk (((splitOnChar ':' sortBy.data).drop 1).headD [])

/-- Embeds `getSortedRows`: filter, then — unless `sortBy` is empty —
stably sort by the comparator (`[...filtered].sort(...)`, stable per the
ECMAScript spec, modelled by `stableSort` on the non-positive-comparator
relation).  When the split key is empty the source returns the raw `rows`
state, not the filtered list. -/
def getSortedRows (columns : List ColumnDef) (rows : List RowData) (p : ViewParams) :
    List RowData :=
  let filtered := getFilteredRows columns rows p
  if p.sortBy == "" then filtered
  else
    let key := sortByKey p.sortBy
    if key == "" then rows
    else
      let asc := sortByDir p.sortBy != "desc"
      stableSort (fun a b =>
        (if asc then rowCmp columns key a b else -(rowCmp columns key a b)) ≤ 0) filtered

/-- The value a row is grouped under (`row.cells[groupBy] ?? "—"`). -/
def groupValue (groupBy : String) (row : RowData) : String :=
  (cellsGet row.cells groupBy).getD "—"

/-- Keys in first-occurrence order, carrying the set of keys already seen
(the `map.has` check of the source's bucket loop). -/
def firstOccurAux (seen : List String) : List String → List String
  | [] => []
  | k :: t =>
    if seen.contains k then firstOccurAux seen t
    else k :: firstOccurAux (k :: seen) t

/-- Keys in first-occurrence order — the insertion order of the JS `Map`
the source accumulates buckets in. -/
def firstOccur (l : List String) : List String := firstOccurAux [] l

/-- The bucket-key comparator of `getGroupedRows`: numeric ascending when
the grouped column is a number column and both keys parse, otherwise
`localeCompare` (modelled as code-point comparison). -/
def groupKeyCmp (isNumCol : Bool) (a b : String) : Int :=
  if isNumCol then
    match parseFloatJs a, parseFloatJs b with
    | some na, some nb => if na < nb then -1 else if nb < na then 1 else 0
    | _, _ => if strLt a b then -1 else if strLt b a then 1 else 0
  else if strLt a b then -1 else if strLt b a then 1 else 0

/-- Embeds `getGroupedRows`.  The source pushes each sorted row into an
insertion-ordered `Map` bucket and then sorts the keys; the `Map` is
modelled by the first-occurrence key list together with per-key filters
(the bucket of `k` holds exactly the sorted rows whose group value is `k`,
in traversal order). -/
def getGroupedRows (columns : List ColumnDef) (rows : List RowData) (p : ViewParams) :
    List (String × List RowData) :=
  let sorted := getSortedRows columns rows p
  if p.groupBy == "" || !(columns.any (fun c => c.propertyName == p.groupBy)) then
    [("", sorted)]
  else
    let keys := firstOccur (sorted.map (groupValue p.groupBy))
    let isNumCol :=
      match columns.find? (fun c => c.propertyName == p.groupBy) with
      | some col => col.type == "number"
      | none => false
    let sortedKeys := stableSort (fun a b => groupKeyCmp isNumCol a b ≤ 0) keys
    sortedKeys.map (fun k => (k, sorted.filter (fun r => groupValue p.groupBy r == k)))

/-- Sort stage as §4.3 of the spec describes it — a function of its input
list alone: no-op when the sort key is unset, otherwise a stable sort of
the input by the same comparator.  Used to compare the pipeline the code
implements against the spec's `filter → sort → group` composition. -/
def specSortStage (columns : List ColumnDef) (p : ViewParams) (l : List RowData) :
    List RowData :=
  if p.sortBy == "" then l
  else
    let key := sortByKey p.sortBy
    if key == "" then l
    else
      let asc := sortByDir p.sortBy != "desc"
      stableSort (fun a b =>
        (if asc then rowCmp columns key a b else -(rowCmp columns key a b)) ≤ 0) l

/-! ### Concrete fixtures used by witnesses and counterexamples -/

/-- A one-column table schema with a number-typed `Score` column. -/
def scoreColumns : List ColumnDef :=
  [{ name := "Score", propertyName := "Score", type := "number" }]

/-- A row whose `Score` cell is the string `"10"`. -/
def rowScoreTen : RowData := { pageId := "p10", cells := [("Score", "10")] }

/-- A row whose `Score` cell is the string `"2"`. -/
def rowScoreTwo : RowData := { pageId := "p2", cells := [("Score", "2")] }

/-- Two rows used by the cell-update witness. -/
def fixtureRows : List RowData :=
  [{ pageId := "p1", cells := [("Name", "Alpha"), ("Score", "3")] },
   { pageId := "p2", cells := [("Score", "9")] }]

/-- An active editing cell targeting `p1`/`Score`. -/
def fixtureCell : EditingCell :=
  { pageId := "p1", property := "Score", columnType := "number", value := "3" }

/-- A prior sync state with one column and one row. -/
def fixtureState : SyncState :=
  { columns := scoreColumns, rows := [rowScoreTen],
    lastSynced := "2024-01-01T00:00:00Z", error := "" }

/-- A one-column table schema with a text column `A`. -/
def viewCols : List ColumnDef :=
  [{ name := "A", propertyName := "A", type := "rich_text" }]

/-- A row whose `A` cell is `"y"`. -/
def viewRow : RowData := { pageId := "r1", cells := [("A", "y")] }

/-- View parameters with an active filter that excludes `viewRow` and a
sort descriptor whose key part is empty (`":asc"`). -/
def viewParamsBad : ViewParams :=
  { sortBy := ":asc", groupBy := "A", filterColumn := "A",
    filterOp := "equals", filterValue := "x" }

/-- Well-formed view parameters over column `A`. -/
def viewParamsGood : ViewParams :=
  { sortBy := "A:asc", groupBy := "A", filterColumn := "A", filterOp := "is_not_empty" }

/-- An input on which id normalization is not idempotent: stripping the
dash glues two 16-character hex runs into a 32-character block that only
the second normalization pass extracts. -/
def idBad : String := "zzaaaaaaaaaaaaaaaa-aaaaaaaaaaaaaaaazz"

/-! ## Helper lemmas -/

theorem parseNotionProperties_keys (props : List (String × Option NotionPropertyValue)) :
    (parseNotionProperties props).map Prod.fst
      = props.filterMap (fun e => e.2.map (fun _ => e.1)) := by
  induction props with
  | nil => rfl
  | cons e rest ih =>
    obtain ⟨k, v⟩ := e
    cases v with
    | none => simpa [parseNotionProperties] using ih
    | some w => simpa [parseNotionProperties] using ih

theorem decodeProperty_unknown (v : NotionPropertyValue) (h : v.type ∉ supportedTypes) :
    decodeProperty v = "" := by
  simp only [supportedTypes, List.mem_cons, List.not_mem_nil, or_false, not_or] at h
  obtain ⟨h1, h2, h3, h4, h5, h6, h7, h8, h9, h10, h11, h12⟩ := h
  simp [decodeProperty, h1, h2, h3, h4, h5, h6, h7, h8, h9, h10, h11, h12]

/-! ## Claim C9 — decoding of null/absent payloads -/

/-- C9 counterexample: the claim says a checkbox property with null/absent
payload decodes to the empty string, but `parseNotionProperties` decodes it
to `"No"`. -/
theorem checkbox_empty_decodes_no :
    parseNotionProperties [("done", some (emptyValue "checkbox"))] = [("done", "No")]
    ∧ ("No" : String) ≠ "" := by
  exact ⟨rfl, by decide⟩

/-- C9 (amended): for every supported field type except checkbox, decoding
a property whose type-specific payload is null or absent yields the empty
string in the row's cells; a checkbox with null/absent payload decodes to
`"No"` (absence is treated as `false`). -/
theorem decode_empty_payloads (k : String) :
    parseNotionProperties [(k, some (emptyValue "title"))] = [(k, "")]
    ∧ parseNotionProperties [(k, some (emptyValue "rich_text"))] = [(k, "")]
    ∧ parseNotionProperties [(k, some (emptyValue "number"))] = [(k, "")]
    ∧ parseNotionProperties [(k, some (emptyValue "select"))] = [(k, "")]
    ∧ parseNotionProperties [(k, some (emptyValue "multi_select"))] = [(k, "")]
    ∧ parseNotionProperties [(k, some (emptyValue "date"))] = [(k, "")]
    ∧ parseNotionProperties [(k, some (emptyValue "url"))] = [(k, "")]
    ∧ parseNotionProperties [(k, some (emptyValue "status"))] = [(k, "")]
    ∧ parseNotionProperties [(k, some (emptyValue "people"))] = [(k, "")]
    ∧ parseNotionProperties [(k, some (emptyValue "formula"))] = [(k, "")]
    ∧ parseNotionProperties [(k, some (emptyValue "rollup"))] = [(k, "")]
    ∧ parseNotionProperties [(k, some (emptyValue "checkbox"))] = [(k, "No")] := by
  exact ⟨rfl, rfl, rfl, rfl, rfl, rfl, rfl, rfl, rfl, rfl, rfl, rfl⟩

/-! ## Claim C1 — totality of decoding -/

/-- C1 counterexample: a checkbox property whose payload is absent is a
malformed/absent payload shape, yet it decodes to `"No"`, not to the empty
string. -/
theorem malformed_checkbox_not_empty :
    parseNotionProperties [("flag", some (emptyValue "checkbox"))] = [("flag", "No")]
    ∧ ("No" : String) ≠ "" := by
  exact ⟨rfl, by decide⟩

/-- C1 (amended): decoding is total — `parseNotionProperties` produces one
string cell for exactly the object-valued entries of the property map (and
being a Lean function it cannot throw); an unknown type tag decodes to the
empty string whatever its payload, and a null/absent payload decodes to the
empty string for every supported type except checkbox, which decodes an
absent payload to `"No"`. -/
theorem decode_total (props : List (String × Option NotionPropertyValue))
    (v : NotionPropertyValue) (t : String) :
    ((parseNotionProperties props).map Prod.fst
        = props.filterMap (fun e => e.2.map (fun _ => e.1)))
    ∧ (v.type ∉ supportedTypes → decodeProperty v = "")
    ∧ (t ∈ supportedTypes → t ≠ "checkbox" → decodeProperty (emptyValue t) = "")
    ∧ decodeProperty (emptyValue "checkbox") = "No" := by
  refine ⟨parseNotionProperties_keys props, decodeProperty_unknown v, ?_, rfl⟩
  intro ht hne
  simp only [supportedTypes, List.mem_cons, List.not_mem_nil, or_false] at ht
  rcases ht with rfl | rfl | rfl | rfl | rfl | rfl | rfl | rfl | rfl | rfl | rfl | rfl
  · rfl
  · rfl
  · rfl
  · rfl
  · rfl
  · exact absurd rfl hne
  · rfl
  · rfl
  · rfl
  · rfl
  · rfl
  · rfl

/-- Witness for `decode_total` at concrete inputs. -/
theorem decode_total_witness :
    decodeProperty { type := "files", url := some "x" } = ""
    ∧ decodeProperty (emptyValue "date") = "" :=
  ⟨(decode_total [] { type := "files", url := some "x" } "date").2.1 (by decide),
   (decode_total [] { type := "files", url := some "x" } "date").2.2.1 (by decide) (by decide)⟩

/-! ## Claim C4 — write-back/decode round trip for simple types -/

/-- C4: for every property name and plain string, decoding the payload
built by `buildNotionPropertyUpdate` reproduces the plain string for
`title` and `rich_text`; the same round trip holds for `url` and `date`
when the string is non-empty. -/
theorem round_trip_simple (k v : String) :
    (parseNotionProperties
        [((buildNotionPropertyUpdate k "title" v).1,
          some (buildNotionPropertyUpdate k "title" v).2)] = [(k, v)])
    ∧ (parseNotionProperties
        [((buildNotionPropertyUpdate k "rich_text" v).1,
          some (buildNotionPropertyUpdate k "rich_text" v).2)] = [(k, v)])
    ∧ (v ≠ "" →
        parseNotionProperties
          [((buildNotionPropertyUpdate k "url" v).1,
            some (buildNotionPropertyUpdate k "url" v).2)] = [(k, v)])
    ∧ (v ≠ "" →
        parseNotionProperties
          [((buildNotionPropertyUpdate k "date" v).1,
            some (buildNotionPropertyUpdate k "date" v).2)] = [(k, v)]) := by
  refine ⟨rfl, rfl, ?_, ?_⟩
  · intro h
    have hb : (v == "") = false := by simpa using h
    simp [buildNotionPropertyUpdate, parseNotionProperties, decodeProperty, hb]
  · intro h
    have hb : (v == "") = false := by simpa using h
    simp [buildNotionPropertyUpdate, parseNotionProperties, decodeProperty, hb]

/-- Witness for `round_trip_simple` at concrete inputs. -/
theorem round_trip_simple_witness :
    parseNotionProperties
      [((buildNotionPropertyUpdate "When" "date" "2024-01-01").1,
        some (buildNotionPropertyUpdate "When" "date" "2024-01-01").2)]
      = [("When", "2024-01-01")]
    ∧ parseNotionProperties
      [((buildNotionPropertyUpdate "Link" "url" "https://x.test").1,
        some (buildNotionPropertyUpdate "Link" "url" "https://x.test").2)]
      = [("Link", "https://x.test")] :=
  ⟨(round_trip_simple "When" "2024-01-01").2.2.2 (by decide),
   (round_trip_simple "Link" "https://x.test").2.2.1 (by decide)⟩

/-! ## Claim C7 — number write-back nulls out cleanly -/

/-- C7: the number mapper sends a null value for the empty string and for
every plain string whose `Number` conversion is NaN; being a total Lean
function over `Option Rat` it cannot throw, and a NaN (modelled by `none`
at the `isNaN` check) never reaches the payload as a number. -/
theorem number_null_clean (k v : String) :
    ((buildNotionPropertyUpdate k "number" "").2.number = none)
    ∧ (jsNumber v = none → (buildNotionPropertyUpdate k "number" v).2.number = none) := by
  refine ⟨rfl, ?_⟩
  intro h
  by_cases hv : v = ""
  · subst hv
    exact absurd h (by decide)
  · have hb : (v == "") = false := by simpa using hv
    simp [buildNotionPropertyUpdate, hb, h]

/-- Witness for `number_null_clean` at concrete inputs. -/
theorem number_null_clean_witness :
    (buildNotionPropertyUpdate "Score" "number" "abc").2.number = none :=
  (number_null_clean "Score" "abc").2 (by decide)

/-! ## Claim C8 — display formatting -/

theorem digitChar_mem (d : Nat) : digitChar d ∈ digitChars := by
  unfold digitChar
  rcases Nat.lt_or_ge d 10 with h | h
  · interval_cases d <;> decide
  · rw [List.getD_eq_default]
    · decide
    · simpa [digitChars] using h

theorem mem_natDigitsAux (fuel : Nat) :
    ∀ (n : Nat) (c : Char), c ∈ natDigitsAux fuel n → c ∈ digitChars := by
  induction fuel with
  | zero =>
    intro n c h
    simp [natDigitsAux] at h
  | succ f ih =>
    intro n c h
    rw [natDigitsAux] at h
    split at h
    · rcases List.mem_singleton.mp h with rfl
      exact digitChar_mem n
    · rcases List.mem_append.mp h with h2 | h2
      · exact ih _ _ h2
      · rcases List.mem_singleton.mp h2 with rfl
        exact digitChar_mem _

theorem mem_natDigits (n : Nat) (c : Char) (h : c ∈ natDigits n) : c ∈ digitChars :=
  mem_natDigitsAux (n + 1) n c h

theorem natDigits_ne_nil (n : Nat) : natDigits n ≠ [] := by
  rw [natDigits, natDigitsAux]
  split
  · simp
  · simp

theorem splitOnChar_of_not_mem (sep : Char) (cs : List Char) (h : sep ∉ cs) :
    splitOnChar sep cs = [cs] := by
  induction cs with
  | nil => rfl
  | cons c t ih =>
    have hc : (c == sep) = false := by
      simp only [List.mem_cons, not_or] at h
      simpa [BEq.comm] using h.1
    have ht : sep ∉ t := by
      simp only [List.mem_cons, not_or] at h
      exact h.2
    rw [splitOnChar, ih ht, hc]
    simp

theorem no_dash_localeDateStr (d : Nat × Nat × Nat) : '-' ∉ (localeDateStr d).data := by
  intro hmem
  have hdig : ('-' : Char) ∈ digitChars ∨ ('-' : Char) = '/' := by
    simp only [localeDateStr, String.mk] at hmem
    rcases List.mem_append.mp hmem with h1 | h1
    · rcases List.mem_append.mp h1 with h2 | h2
      · exact Or.inl (mem_natDigits _ _ h2)
      · rcases List.mem_cons.mp h2 with h3 | h3
        · exact Or.inr h3
        · exact Or.inl (mem_natDigits _ _ h3)
    · rcases List.mem_cons.mp h1 with h2 | h2
      · exact Or.inr h2
      · exact Or.inl (mem_natDigits _ _ h2)
  rcases hdig with h | h
  · exact absurd h (by decide)
  · exact absurd h (by decide)

theorem parseDateJs_localeDateStr (d : Nat × Nat × Nat) :
    parseDateJs (localeDateStr d) = none := by
  rw [parseDateJs, splitOnChar_of_not_mem _ _ (no_dash_localeDateStr d)]

theorem localeDateStr_ne_empty (d : Nat × Nat × Nat) : (localeDateStr d == "") = false := by
  refine beq_eq_false_iff_ne.mpr ?_
  intro h
  have hdata : (localeDateStr d).data = [] := by rw [h]
  simp only [localeDateStr, String.mk] at hdata
  rcases List.append_eq_nil.mp hdata with ⟨-, h2⟩
  exact List.cons_ne_nil _ _ h2

/-- C8 counterexample: checkbox formatting is not idempotent — `"yes"`
formats to `"✓"`, which a second application turns into `"—"`. -/
theorem format_checkbox_not_idem :
    formatCellForDisplay "checkbox" "yes" = "✓"
    ∧ formatCellForDisplay "checkbox" (formatCellForDisplay "checkbox" "yes") = "—"
    ∧ ("—" : String) ≠ "✓" :=
  ⟨rfl, rfl, by decide⟩

/-- C8 (amended): display formatting is a pure function of the type and
the decoded string (so it cannot modify the stored cells), and it is
idempotent for every field type other than `checkbox` and `number` — for
those two a second application can change the result (checkbox: `"yes"` →
`"✓"` → `"—"`; number: locale grouping makes the output unparseable as the
original float). -/
theorem format_idem (t v : String) (hc : t ≠ "checkbox") (hn : t ≠ "number") :
    formatCellForDisplay t (formatCellForDisplay t v) = formatCellForDisplay t v := by
  have hcb : (t == "checkbox") = false := by simpa using hc
  have hnb : (t == "number") = false := by simpa using hn
  by_cases hd : t = "date"
  · subst hd
    by_cases hv : v = ""
    · subst hv; rfl
    · have hvb : (v == "") = false := by simpa using hv
      cases hp : parseDateJs v with
      | none =>
        have hfv : formatCellForDisplay "date" v = v := by
          simp [formatCellForDisplay, hvb, hp]
        rw [hfv]
        exact hfv
      | some d =>
        have hfv : formatCellForDisplay "date" v = localeDateStr d := by
          simp [formatCellForDisplay, hvb, hp]
        rw [hfv]
        simp [formatCellForDisplay, localeDateStr_ne_empty d, parseDateJs_localeDateStr d]
  · have hdb : (t == "date") = false := by simpa using hd
    by_cases hv : v = ""
    · subst hv
      have h1 : formatCellForDisplay t "" = "—" := by simp [formatCellForDisplay]
      rw [h1]
      simp [formatCellForDisplay, hcb, hnb, hdb]
    · have hvb : (v == "") = false := by simpa using hv
      have hfv : formatCellForDisplay t v = v := by
        simp [formatCellForDisplay, hvb, hcb, hnb, hdb]
      rw [hfv]
      exact hfv

/-- Witness for `format_idem` at concrete inputs. -/
theorem format_idem_witness :
    formatCellForDisplay "url" (formatCellForDisplay "url" "https://x.test")
      = formatCellForDisplay "url" "https://x.test" :=
  format_idem "url" "https://x.test" (by decide) (by decide)

/-! ## Claim C6 — numeric sort resolution -/

/-- C6: for a non-timestamp sort key, a cell of a number-typed column
resolves to its parsed float (unparseable → 0) and a cell of any other
column to its lowercased string (case-insensitive lexical comparison); in
particular the ascending sort of two number cells `"10"` and `"2"` puts
the `"2"` row first. -/
theorem numeric_sort_resolution (columns : List ColumnDef) (row : RowData) (key : String)
    (col : ColumnDef) (h1 : key ≠ "created_time") (h2 : key ≠ "last_edited_time") :
    (columns.find? (fun c => c.propertyName == key) = some col → col.type = "number" →
      getCellSortValue columns row key
        = .num ((parseFloatJs ((cellsGet row.cells key).getD "")).getD 0))
    ∧ (columns.find? (fun c => c.propertyName == key) = some col → col.type ≠ "number" →
      getCellSortValue columns row key
        = .str (strLower ((cellsGet row.cells key).getD "")))
    ∧ (columns.find? (fun c => c.propertyName == key) = none →
      getCellSortValue columns row key
        = .str (strLower ((cellsGet row.cells key).getD "")))
    ∧ getSortedRows scoreColumns [rowScoreTen, rowScoreTwo] { sortBy := "Score:asc" }
        = [rowScoreTwo, rowScoreTen] := by
  have hb1 : (key == "created_time") = false := by simpa using h1
  have hb2 : (key == "last_edited_time") = false := by simpa using h2
  refine ⟨?_, ?_, ?_, by decide⟩
  · intro hf ht
    have htb : (col.type == "number") = true := by simpa using ht
    simp [getCellSortValue, hb1, hb2, hf, htb]
  · intro hf ht
    have htb : (col.type == "number") = false := by simpa using ht
    simp [getCellSortValue, hb1, hb2, hf, htb]
  · intro hf
    simp [getCellSortValue, hb1, hb2, hf]

/-- Witness for `numeric_sort_resolution` at concrete inputs. -/
theorem numeric_sort_resolution_witness :
    getCellSortValue scoreColumns rowScoreTen "Score"
      = .num ((parseFloatJs ((cellsGet rowScoreTen.cells "Score").getD "")).getD 0) :=
  (numeric_sort_resolution scoreColumns rowScoreTen "Score"
      { name := "Score", propertyName := "Score", type := "number" }
      (by decide) (by decide)).1 (by decide) rfl

/-! ## Claim C3 — cell-update frame effect -/

theorem cellsGet_setCell_self (cs : List (String × String)) (k v : String) :
    cellsGet (setCell cs k v) k = some v := by
  induction cs with
  | nil => simp [setCell, cellsGet]
  | cons p t ih =>
    obtain ⟨k0, v0⟩ := p
    cases hb : (k0 == k)
    · simp [setCell, cellsGet, hb, ih]
    · simp [setCell, cellsGet, hb]

theorem cellsGet_setCell_ne (cs : List (String × String)) (k v k2 : String) (h : k2 ≠ k) :
    cellsGet (setCell cs k v) k2 = cellsGet cs k2 := by
  have hk : (k == k2) = false := by simpa using (Ne.symm h)
  induction cs with
  | nil => simp [setCell, cellsGet, hk]
  | cons p t ih =>
    obtain ⟨k0, v0⟩ := p
    cases hb : (k0 == k)
    · simp [setCell, cellsGet, hb, ih]
    · have hbk : k0 = k := by simpa using hb
      subst hbk
      simp [setCell, cellsGet, hb, hk]

/-- C3: with an active editing cell, a success response patches exactly the
matching row's one cell to the new plain value — every other row is left
identical, the rest of the matching row's cells read unchanged — and the
editing cell is cleared; a failure response leaves the row list exactly as
it was (and also clears the editing cell, which the source does before the
request). -/
theorem cell_update_frame (rows : List RowData) (columns : List ColumnDef)
    (cell : EditingCell) (prevError newValue : String) (res : UpdateResponse) :
    (res.ok = true →
      (saveCellEdit rows columns (some cell) prevError newValue res).editingCell = none
      ∧ (saveCellEdit rows columns (some cell) prevError newValue res).rows.length = rows.length
      ∧ ∀ i : Nat, ∀ old : RowData, rows[i]? = some old →
          ∃ nw : RowData,
            (saveCellEdit rows columns (some cell) prevError newValue res).rows[i]? = some nw
            ∧ (old.pageId ≠ cell.pageId → nw = old)
            ∧ (old.pageId = cell.pageId →
                nw.pageId = old.pageId
                ∧ cellsGet nw.cells cell.property = some newValue
                ∧ ∀ k2 : String, k2 ≠ cell.property →
                    cellsGet nw.cells k2 = cellsGet old.cells k2))
    ∧ (res.ok = false →
        (saveCellEdit rows columns (some cell) prevError newValue res).rows = rows
        ∧ (saveCellEdit rows columns (some cell) prevError newValue res).editingCell = none) := by
  constructor
  · intro hok
    simp only [saveCellEdit, hok, if_true]
    refine ⟨trivial, by simp, ?_⟩
    intro i old hold
    refine ⟨if old.pageId == cell.pageId
            then { old with cells := setCell old.cells cell.property newValue }
            else old, ?_, ?_, ?_⟩
    · simp [List.getElem?_map, hold]
    · intro hne
      have hb : ¬ ((old.pageId == cell.pageId) = true) := by simpa using hne
      rw [if_neg hb]
    · intro heq
      have hb : (old.pageId == cell.pageId) = true := by simpa using heq
      rw [if_pos hb]
      exact ⟨rfl, cellsGet_setCell_self _ _ _,
             fun k2 hk2 => cellsGet_setCell_ne _ _ _ _ hk2⟩
  · intro hok
    simp [saveCellEdit, hok]

/-- Witness for `cell_update_frame` at concrete inputs. -/
theorem cell_update_frame_witness :
    (saveCellEdit fixtureRows scoreColumns (some fixtureCell) "e0" "7"
        { ok := true, status := 200, body := "" }).editingCell = none :=
  ((cell_update_frame fixtureRows scoreColumns fixtureCell "e0" "7"
      { ok := true, status := 200, body := "" }).1 rfl).1

/-! ## Claim C2 — full-sync failure handling -/

/-- C2 counterexample: on a 404 response the sync replaces the
status-and-body message by the fixed not-found guidance message, so the
error contains neither the status code nor the (truncated) response
body. -/
theorem sync_404_message :
    (fetchFromNotion fixtureState "http://proxy" "db1" none
        { ok := false, status := 404, body := "gone" } "t1").state.error = dbNotFoundMsg
    ∧ strContains dbNotFoundMsg (natToStr 404) = false
    ∧ strContains dbNotFoundMsg "gone" = false := by
  refine ⟨rfl, by decide, by decide⟩

/-- C2 (amended): with a non-blank configuration, a non-success
record-query response leaves the local columns, rows and last-synced
timestamp exactly as they were, and sets the error message to the status
code followed by the body truncated to 100 characters — except when the
status is 404 or the body indicates the database was not found, in which
case the error is a fixed guidance message carrying neither. -/
theorem sync_failure_atomic (st : SyncState) (proxyUrl databaseId : String)
    (schemaData : Option NotionDatabaseResponse) (queryRes : QueryResponse) (now : String)
    (hp : strTrim proxyUrl ≠ "") (hd : strTrim databaseId ≠ "") (hq : queryRes.ok = false) :
    (fetchFromNotion st proxyUrl databaseId schemaData queryRes now).state.columns = st.columns
    ∧ (fetchFromNotion st proxyUrl databaseId schemaData queryRes now).state.rows = st.rows
    ∧ (fetchFromNotion st proxyUrl databaseId schemaData queryRes now).state.lastSynced
        = st.lastSynced
    ∧ (fetchFromNotion st proxyUrl databaseId schemaData queryRes now).state.error
        = (if queryRes.status == 404 || strContains queryRes.body "could not find"
              || strContains queryRes.body "locate database"
           then dbNotFoundMsg
           else "Notion API: " ++ natToStr queryRes.status ++ " " ++ strTake queryRes.body 100) := by
  have hpb : (strTrim proxyUrl == "") = false := by simpa using hp
  have hdb : (strTrim databaseId == "") = false := by simpa using hd
  simp [fetchFromNotion, hpb, hdb, hq]

/-- Witness for `sync_failure_atomic` at concrete inputs. -/
theorem sync_failure_atomic_witness :
    (fetchFromNotion fixtureState "http://proxy" "db1" none
        { ok := false, status := 500, body := "boom" } "t1").state.rows = fixtureState.rows
    ∧ (fetchFromNotion fixtureState "http://proxy" "db1" none
        { ok := false, status := 500, body := "boom" } "t1").state.lastSynced
        = fixtureState.lastSynced :=
  ⟨(sync_failure_atomic fixtureState "http://proxy" "db1" none
      { ok := false, status := 500, body := "boom" } "t1"
      (by decide) (by decide) rfl).2.1,
   (sync_failure_atomic fixtureState "http://proxy" "db1" none
      { ok := false, status := 500, body := "boom" } "t1"
      (by decide) (by decide) rfl).2.2.1⟩

/-! ## Claim C10 — database-id normalization -/

theorem table_snd_not_fst :
    ∀ p ∈ upperLowerTable, upperLowerTable.find? (fun q => q.1 == p.2) = none := by
  decide

theorem table_snd_ne_dash : ∀ p ∈ upperLowerTable, p.2 ≠ '-' := by
  decide

theorem table_hex : ∀ p ∈ upperLowerTable, isHexChar p.2 = isHexChar p.1 := by
  decide

theorem lowerChar_eq_of_none (c : Char)
    (h : upperLowerTable.find? (fun p => p.1 == c) = none) : lowerChar c = c := by
  simp [lowerChar, h]

theorem lowerChar_eq_of_some (c : Char) (p : Char × Char)
    (h : upperLowerTable.find? (fun q => q.1 == c) = some p) : lowerChar c = p.2 := by
  simp [lowerChar, h]

theorem lowerChar_idem (c : Char) : lowerChar (lowerChar c) = lowerChar c := by
  cases hf : upperLowerTable.find? (fun p => p.1 == c) with
  | none => rw [lowerChar_eq_of_none c hf, lowerChar_eq_of_none c hf]
  | some p =>
    have hp : p ∈ upperLowerTable := List.mem_of_find?_eq_some hf
    rw [lowerChar_eq_of_some c p hf, lowerChar_eq_of_none p.2 (table_snd_not_fst p hp)]

theorem lowerChar_ne_dash (c : Char) (h : c ≠ '-') : lowerChar c ≠ '-' := by
  cases hf : upperLowerTable.find? (fun p => p.1 == c) with
  | none => rw [lowerChar_eq_of_none c hf]; exact h
  | some p =>
    rw [lowerChar_eq_of_some c p hf]
    exact table_snd_ne_dash p (List.mem_of_find?_eq_some hf)

theorem lowerChar_hex (c : Char) (h : isHexChar c = true) :
    isHexChar (lowerChar c) = true := by
  cases hf : upperLowerTable.find? (fun p => p.1 == c) with
  | none => rw [lowerChar_eq_of_none c hf]; exact h
  | some p =>
    rw [lowerChar_eq_of_some c p hf]
    have hp : p ∈ upperLowerTable := List.mem_of_find?_eq_some hf
    have hc : p.1 = c := by
      have := List.find?_some hf
      simpa using this
    rw [table_hex p hp, hc]
    exact h

theorem hex_not_ws (c : Char) (h : isHexChar c = true) : isWsJs c = false := by
  cases hw : isWsJs c
  · rfl
  · exfalso
    simp only [isWsJs, Bool.or_eq_true, beq_iff_eq] at hw
    rcases hw with ((((rfl | rfl) | rfl) | rfl) | rfl) | rfl <;> exact absurd h (by decide)

theorem findHex32_some (cs h : List Char) (hf : findHex32 cs = some h) :
    h.length = 32 ∧ h.all isHexChar = true := by
  induction cs with
  | nil => exact absurd hf (by simp [findHex32])
  | cons c t ih =>
    rw [findHex32] at hf
    split at hf
    · rename_i hcond
      rcases Option.some.inj hf with rfl
      simp only [Bool.and_eq_true, beq_iff_eq] at hcond
      exact ⟨hcond.1, hcond.2⟩
    · exact ih hf

theorem findHex32_self (h : List Char) (hlen : h.length = 32)
    (hall : h.all isHexChar = true) : findHex32 h = some h := by
  cases h with
  | nil => simp at hlen
  | cons c t =>
    rw [findHex32]
    have htake : (c :: t).take 32 = c :: t :=
      List.take_of_length_le (by rw [hlen])
    rw [htake, hlen, hall]
    simp

theorem dropWhile_head_false (p : Char → Bool) (l : List Char) (c : Char) (t : List Char)
    (h : l.dropWhile p = c :: t) : p c = false := by
  induction l with
  | nil => simp at h
  | cons a l2 ih =>
    rw [List.dropWhile_cons] at h
    split at h
    · exact ih h
    · rename_i hpa
      rcases (List.cons.inj h).1 with rfl
      simpa using hpa

theorem dropWhile_is_suffix (p : Char → Bool) (l : List Char) :
    ∃ pre, l = pre ++ l.dropWhile p := by
  induction l with
  | nil => exact ⟨[], rfl⟩
  | cons a l2 ih =>
    rw [List.dropWhile_cons]
    split
    · obtain ⟨pre, hpre⟩ := ih
      exact ⟨a :: pre, by rw [List.cons_append, ← hpre]⟩
    · exact ⟨[], rfl⟩

theorem dropWhile_dropWhile (p : Char → Bool) (l : List Char) :
    List.dropWhile p (List.dropWhile p l) = List.dropWhile p l := by
  cases hd : List.dropWhile p l with
  | nil => rfl
  | cons c t =>
    rw [List.dropWhile_cons, dropWhile_head_false p l c t hd]
    simp

theorem dropWhile_dropEndWs (cs : List Char) :
    List.dropWhile isWsJs (dropEndWs (List.dropWhile isWsJs cs))
      = dropEndWs (List.dropWhile isWsJs cs) := by
  cases hS : dropEndWs (List.dropWhile isWsJs cs) with
  | nil => rfl
  | cons c t =>
    obtain ⟨pre, hpre⟩ :=
      dropWhile_is_suffix isWsJs (List.dropWhile isWsJs cs).reverse
    have hB : List.dropWhile isWsJs cs = c :: (t ++ pre.reverse) := by
      have h1 : List.dropWhile isWsJs cs
          = (dropEndWs (List.dropWhile isWsJs cs)) ++ pre.reverse := by
        calc List.dropWhile isWsJs cs
            = (List.dropWhile isWsJs cs).reverse.reverse := (List.reverse_reverse _).symm
          _ = (pre ++ (List.dropWhile isWsJs (List.dropWhile isWsJs cs).reverse)).reverse := by
                rw [← hpre]
          _ = (List.dropWhile isWsJs (List.dropWhile isWsJs cs).reverse).reverse
                ++ pre.reverse := by rw [List.reverse_append]
          _ = (dropEndWs (List.dropWhile isWsJs cs)) ++ pre.reverse := rfl
      rw [h1, hS, List.cons_append]
    have hc : isWsJs c = false := dropWhile_head_false isWsJs cs c _ hB
    rw [List.dropWhile_cons, hc]
    simp

theorem dropEndWs_dropEndWs (l : List Char) : dropEndWs (dropEndWs l) = dropEndWs l := by
  unfold dropEndWs
  rw [List.reverse_reverse, dropWhile_dropWhile]

theorem trimChars_idem (cs : List Char) : trimChars (trimChars cs) = trimChars cs := by
  unfold trimChars
  rw [dropWhile_dropEndWs, dropEndWs_dropEndWs]

theorem dropWhile_eq_self_of_all (p : Char → Bool) (l : List Char)
    (h : ∀ c ∈ l, p c = false) : List.dropWhile p l = l := by
  cases l with
  | nil => rfl
  | cons a t =>
    rw [List.dropWhile_cons, h a (List.mem_cons_self a t)]
    simp

theorem trimChars_of_all (cs : List Char) (h : ∀ c ∈ cs, isWsJs c = false) :
    trimChars cs = cs := by
  unfold trimChars dropEndWs
  rw [dropWhile_eq_self_of_all isWsJs cs h,
      dropWhile_eq_self_of_all isWsJs cs.reverse (fun c hc => h c (List.mem_reverse.mp hc)),
      List.reverse_reverse]

theorem mem_trimChars (cs : List Char) (c : Char) (h : c ∈ trimChars cs) : c ∈ cs := by
  unfold trimChars dropEndWs at h
  have h2 := List.mem_reverse.mp h
  have h3 := (List.dropWhile_sublist isWsJs).mem h2
  have h4 := List.mem_reverse.mp h3
  exact (List.dropWhile_sublist isWsJs).mem h4

theorem map_eq_self_of_fix (f : Char → Char) (l : List Char)
    (h : ∀ c ∈ l, f c = c) : l.map f = l := by
  induction l with
  | nil => rfl
  | cons a t ih =>
    rw [List.map_cons, h a (List.mem_cons_self a t),
        ih (fun c hc => h c (List.mem_cons_of_mem a hc))]

theorem filter_eq_self_of_all (p : Char → Bool) (l : List Char)
    (h : ∀ c ∈ l, p c = true) : l.filter p = l := by
  induction l with
  | nil => rfl
  | cons a t ih =>
    rw [List.filter_cons, h a (List.mem_cons_self a t)]
    simp only [if_true]
    rw [ih (fun c hc => h c (List.mem_cons_of_mem a hc))]

theorem normalizeIdChars_lower_fixed (cs : List Char) (c : Char)
    (h : c ∈ normalizeIdChars cs) : lowerChar c = c := by
  simp only [normalizeIdChars] at h
  split at h
  · obtain ⟨a, -, rfl⟩ := List.mem_map.mp h
    exact lowerChar_idem a
  · obtain ⟨a, -, rfl⟩ := List.mem_map.mp h
    exact lowerChar_idem a

theorem normalizeIdChars_dash_free (cs : List Char) (c : Char)
    (h : c ∈ normalizeIdChars cs) : c ≠ '-' := by
  simp only [normalizeIdChars] at h
  split at h
  · rename_i hx hf
    obtain ⟨a, ha, rfl⟩ := List.mem_map.mp h
    have hhex : isHexChar a = true := by
      have := (findHex32_some _ _ hf).2
      exact (List.all_eq_true.mp this) a ha
    refine lowerChar_ne_dash a ?_
    intro heq
    rw [heq] at hhex
    exact absurd hhex (by decide)
  · obtain ⟨a, ha, rfl⟩ := List.mem_map.mp h
    have hane : a ≠ '-' := by
      have := List.of_mem_filter ha
      simpa using this
    exact lowerChar_ne_dash a hane

theorem normalizeIdChars_hex_idem (cs : List Char)
    (h : (findHex32 (trimChars cs)).isSome = true) :
    normalizeIdChars (normalizeIdChars cs) = normalizeIdChars cs := by
  obtain ⟨hx, hf⟩ := Option.isSome_iff_exists.mp h
  have h1 : normalizeIdChars cs = hx.map lowerChar := by
    simp only [normalizeIdChars, hf]
  obtain ⟨hlen, hall⟩ := findHex32_some _ _ hf
  have hall2 : (hx.map lowerChar).all isHexChar = true := by
    rw [List.all_eq_true] at hall ⊢
    intro c hc
    obtain ⟨a, ha, rfl⟩ := List.mem_map.mp hc
    exact lowerChar_hex a (hall a ha)
  have hlen2 : (hx.map lowerChar).length = 32 := by rw [List.length_map, hlen]
  have htrim : trimChars (hx.map lowerChar) = hx.map lowerChar :=
    trimChars_of_all _ (fun c hc => hex_not_ws c ((List.all_eq_true.mp hall2) c hc))
  rw [h1]
  simp only [normalizeIdChars, htrim, findHex32_self _ hlen2 hall2]
  exact map_eq_self_of_fix _ _ (fun c hc => by
    obtain ⟨a, -, rfl⟩ := List.mem_map.mp hc
    exact lowerChar_idem a)

theorem normalizeIdChars_stable (cs : List Char) :
    normalizeIdChars (normalizeIdChars (normalizeIdChars cs))
      = normalizeIdChars (normalizeIdChars cs) := by
  set u := normalizeIdChars cs with hu
  cases hf : findHex32 (trimChars u) with
  | some h => exact normalizeIdChars_hex_idem u (by rw [hf]; rfl)
  | none =>
    have hfix : ∀ c ∈ u, lowerChar c = c := fun c hc => normalizeIdChars_lower_fixed cs c (hu ▸ hc)
    have hdash : ∀ c ∈ u, c ≠ '-' := fun c hc => normalizeIdChars_dash_free cs c (hu ▸ hc)
    have hval : ∀ (w : List Char), (∀ c ∈ w, c ∈ u) →
        (w.filter (fun c => c != '-')).map lowerChar = w := by
      intro w hw
      rw [filter_eq_self_of_all _ w (fun c hc => by
            simpa using hdash c (hw c hc))]
      exact map_eq_self_of_fix _ w (fun c hc => hfix c (hw c hc))
    have h1 : normalizeIdChars u = trimChars u := by
      simp only [normalizeIdChars, hf]
      exact hval (trimChars u) (fun c hc => mem_trimChars u c hc)
    rw [h1]
    simp only [normalizeIdChars, trimChars_idem u, hf]
    exact hval (trimChars u) (fun c hc => mem_trimChars u c hc)

/-- C10 counterexample: normalization is not idempotent — on
`"zzaaaaaaaaaaaaaaaa-aaaaaaaaaaaaaaaazz"` the first pass finds no
32-character hex block (the dash splits two 16-character runs), strips the
dash and produces `"zz" ++ 32 hex characters ++ "zz"`, from which a second
pass extracts the inner hex block. -/
theorem normalize_not_idem :
    normalizeDatabaseId (normalizeDatabaseId idBad) ≠ normalizeDatabaseId idBad := by
  decide

/-- C10 (amended): normalization stabilizes after two applications —
`normalizeDatabaseId` applied three times equals twice for every input,
and once the trimmed input contains a 32-character hex block a single
application is already idempotent; and the full sync queries the remote
using `normalizeDatabaseId databaseId`, not the configured string
verbatim. -/
theorem normalize_stable (s : String) (st : SyncState) (proxyUrl databaseId : String)
    (schemaData : Option NotionDatabaseResponse) (queryRes : QueryResponse) (now : String)
    (hp : strTrim proxyUrl ≠ "") (hd : strTrim databaseId ≠ "") :
    normalizeDatabaseId (normalizeDatabaseId (normalizeDatabaseId s))
      = normalizeDatabaseId (normalizeDatabaseId s)
    ∧ ((findHex32 (trimChars s.data)).isSome = true →
        normalizeDatabaseId (normalizeDatabaseId s) = normalizeDatabaseId s)
    ∧ (fetchFromNotion st proxyUrl databaseId schemaData queryRes now).request
        = some (stripTrailingSlash proxyUrl ++ "/notion/databases/"
                ++ normalizeDatabaseId databaseId ++ "/query") := by
  refine ⟨?_, ?_, ?_⟩
  · show String.mk (normalizeIdChars (String.mk (normalizeIdChars (String.mk (normalizeIdChars s.data)).data)).data)
        = String.mk (normalizeIdChars (String.mk (normalizeIdChars s.data)).data)
    rw [show (String.mk (normalizeIdChars s.data)).data = normalizeIdChars s.data from rfl]
    rw [show (String.mk (normalizeIdChars (normalizeIdChars s.data))).data
          = normalizeIdChars (normalizeIdChars s.data) from rfl]
    rw [normalizeIdChars_stable]
  · intro h
    show String.mk (normalizeIdChars (String.mk (normalizeIdChars s.data)).data)
        = String.mk (normalizeIdChars s.data)
    rw [show (String.mk (normalizeIdChars s.data)).data = normalizeIdChars s.data from rfl]
    rw [normalizeIdChars_hex_idem s.data h]
  · have hpb : (strTrim proxyUrl == "") = false := by simpa using hp
    have hdb : (strTrim databaseId == "") = false := by simpa using hd
    cases hq : queryRes.ok
    · simp [fetchFromNotion, hpb, hdb, hq]
    · simp [fetchFromNotion, hpb, hdb, hq]

/-- Witness for `normalize_stable` at concrete inputs. -/
theorem normalize_stable_witness :
    (fetchFromNotion fixtureState "http://proxy/" "  DB- " none
        { ok := false, status := 500, body := "x" } "t1").request
      = some (stripTrailingSlash "http://proxy/" ++ "/notion/databases/"
              ++ normalizeDatabaseId "  DB- " ++ "/query") :=
  (normalize_stable "  DB- " fixtureState "http://proxy/" "  DB- " none
      { ok := false, status := 500, body := "x" } "t1"
      (by decide) (by decide)).2.2

/-! ## Claim C5 — view pipeline composability -/

theorem insertSorted_perm {α : Type} (le : α → α → Bool) (a : α) (l : List α) :
    (insertSorted le a l).Perm (a :: l) := by
  induction l with
  | nil => exact List.Perm.refl _
  | cons b t ih =>
    rw [insertSorted]
    split
    · exact List.Perm.refl _
    · exact (List.Perm.cons b ih).trans (List.Perm.swap a b t)

theorem stableSort_perm {α : Type} (le : α → α → Bool) (l : List α) :
    (stableSort le l).Perm l := by
  induction l with
  | nil => exact List.Perm.refl _
  | cons a t ih =>
    rw [stableSort]
    exact (insertSorted_perm le a _).trans (List.Perm.cons a ih)

theorem mem_firstOccurAux (l : List String) :
    ∀ (seen : List String) (a : String),
      a ∈ firstOccurAux seen l ↔ (a ∈ l ∧ a ∉ seen) := by
  induction l with
  | nil =>
    intro seen a
    simp [firstOccurAux]
  | cons k t ih =>
    intro seen a
    rw [firstOccurAux]
    split
    · rename_i hk
      have hk2 : k ∈ seen := by simpa using hk
      constructor
      · intro hmem
        obtain ⟨ha, hs⟩ := (ih seen a).mp hmem
        exact ⟨List.mem_cons_of_mem k ha, hs⟩
      · rintro ⟨ha, hs⟩
        rcases List.mem_cons.mp ha with rfl | ha2
        · exact absurd hk2 hs
        · exact (ih seen a).mpr ⟨ha2, hs⟩
    · rename_i hk
      have hk2 : k ∉ seen := by simpa using hk
      constructor
      · intro hmem
        rcases List.mem_cons.mp hmem with rfl | hmem2
        · exact ⟨List.mem_cons_self _ _, hk2⟩
        · obtain ⟨ha, hs⟩ := (ih (k :: seen) a).mp hmem2
          exact ⟨List.mem_cons_of_mem k ha, fun hm => hs (List.mem_cons_of_mem k hm)⟩
      · rintro ⟨ha, hs⟩
        rcases List.mem_cons.mp ha with rfl | ha2
        · exact List.mem_cons_self _ _
        · by_cases hak : a = k
          · subst hak
            exact List.mem_cons_self _ _
          · refine List.mem_cons_of_mem k ((ih (k :: seen) a).mpr ⟨ha2, ?_⟩)
            intro hm
            rcases List.mem_cons.mp hm with heq | hm2
            · exact hak heq
            · exact hs hm2

theorem nodup_firstOccurAux (l : List String) :
    ∀ seen : List String, (firstOccurAux seen l).Nodup := by
  induction l with
  | nil =>
    intro seen
    simp [firstOccurAux]
  | cons k t ih =>
    intro seen
    rw [firstOccurAux]
    split
    · exact ih seen
    · refine List.nodup_cons.mpr ⟨?_, ih (k :: seen)⟩
      intro hk
      exact ((mem_firstOccurAux t (k :: seen) k).mp hk).2 (List.mem_cons_self k seen)

theorem mem_firstOccur (l : List String) (a : String) : a ∈ firstOccur l ↔ a ∈ l := by
  rw [firstOccur, mem_firstOccurAux]
  simp

theorem nodup_firstOccur (l : List String) : (firstOccur l).Nodup :=
  nodup_firstOccurAux l []

theorem flatMap_congr_mem {α β : Type} (l : List α) (f g : α → List β)
    (h : ∀ a ∈ l, f a = g a) : l.flatMap f = l.flatMap g := by
  induction l with
  | nil => rfl
  | cons a t ih =>
    rw [List.flatMap_cons, List.flatMap_cons, h a (List.mem_cons_self a t),
        ih (fun b hb => h b (List.mem_cons_of_mem a hb))]

theorem flatMap_filter_perm {α : Type} (f : α → String) :
    ∀ (ks : List String) (l : List α), ks.Nodup → (∀ r ∈ l, f r ∈ ks) →
      (ks.flatMap (fun k => l.filter (fun r => f r == k))).Perm l := by
  intro ks
  induction ks with
  | nil =>
    intro l _ hcov
    have hl : l = [] := List.eq_nil_iff_forall_not_mem.mpr (fun a ha => by simpa using hcov a ha)
    rw [hl]
    exact List.Perm.refl _
  | cons k t ih =>
    intro l hnd hcov
    have hnd2 := List.nodup_cons.mp hnd
    rw [List.flatMap_cons]
    have hstep : t.flatMap (fun k2 => l.filter (fun r => f r == k2))
        = t.flatMap (fun k2 => (l.filter (fun r => !(f r == k))).filter (fun r => f r == k2)) := by
      refine flatMap_congr_mem t _ _ (fun k2 hk2 => ?_)
      have hne : k2 ≠ k := fun heq => hnd2.1 (heq ▸ hk2)
      rw [List.filter_filter]
      refine (List.filter_congr (fun r _ => ?_)).symm
      cases hb : f r == k2
      · simp
      · have : f r = k2 := by simpa using hb
        have : (f r == k) = false := by
          refine beq_eq_false_iff_ne.mpr ?_
          rw [this]
          exact hne
        simp [this]
    rw [hstep]
    have hcov2 : ∀ r ∈ l.filter (fun r => !(f r == k)), f r ∈ t := by
      intro r hr
      have hmem := List.mem_of_mem_filter hr
      have hne : (f r == k) = false := by
        have := List.of_mem_filter hr
        simpa using this
      rcases List.mem_cons.mp (hcov r hmem) with heq | hm
      · exact absurd (by simpa using heq : (f r == k) = true) (by simp [hne])
      · exact hm
    have hperm2 := ih (l.filter (fun r => !(f r == k))) hnd2.2 hcov2
    exact ((List.Perm.append_left _ hperm2).trans (List.filter_append_perm _ l))

/-- C5 counterexample: with an active filter and the sort descriptor
`":asc"` (empty key part), `getSortedRows` returns the raw unfiltered
`rows` state, so the grouped buckets contain a row that the spec's
`sort(filter(R))` pipeline excludes — the stages are not composed as
filter → sort → group on this input. -/
theorem pipeline_bypass :
    ((getGroupedRows viewCols [viewRow] viewParamsBad).map Prod.snd).flatten = [viewRow]
    ∧ getFilteredRows viewCols [viewRow] viewParamsBad = []
    ∧ specSortStage viewCols viewParamsBad (getFilteredRows viewCols [viewRow] viewParamsBad) = []
    ∧ getSortedRows viewCols [viewRow] viewParamsBad
        ≠ specSortStage viewCols viewParamsBad (getFilteredRows viewCols [viewRow] viewParamsBad) := by
  exact ⟨by decide, by decide, by decide, by decide⟩

/-- C5 (amended): for every row set and view parameters whose `sortBy`
descriptor is empty or carries a non-empty key part, the grouped result is
built from `sort(filter(R))`: the concatenation of the buckets is a
permutation of the sorted-filtered list, every bucket preserves its order
(each bucket is an order-preserving subsequence of it), and the sorting
stage equals the spec's standalone sort stage applied to the filter
stage's output.  When `sortBy` is non-empty with an empty key (e.g.
`":asc"`), sorting returns the unfiltered row state and the composition
fails (see the counterexample). -/
theorem view_pipeline (columns : List ColumnDef) (rows : List RowData) (p : ViewParams)
    (h : p.sortBy = "" ∨ sortByKey p.sortBy ≠ "") :
    (((getGroupedRows columns rows p).map Prod.snd).flatten).Perm
        (getSortedRows columns rows p)
    ∧ (∀ g ∈ getGroupedRows columns rows p, g.2.Sublist (getSortedRows columns rows p))
    ∧ getSortedRows columns rows p
        = specSortStage columns p (getFilteredRows columns rows p) := by
  refine ⟨?_, ?_, ?_⟩
  · cases hg : (p.groupBy == "" || !(columns.any (fun c => c.propertyName == p.groupBy)))
    · simp only [getGroupedRows, hg, Bool.false_eq_true, if_false, List.map_map]
      refine flatMap_filter_perm (groupValue p.groupBy) _ _ ?_ ?_
      · exact ((stableSort_perm _ _).nodup_iff).mpr (nodup_firstOccur _)
      · intro r hr
        refine ((stableSort_perm _ _).mem_iff).mpr ?_
        refine (mem_firstOccur _ _).mpr ?_
        exact List.mem_map_of_mem (groupValue p.groupBy) hr
    · simp only [getGroupedRows, hg, if_true]
      simp
  · intro g hg
    cases hgb : (p.groupBy == "" || !(columns.any (fun c => c.propertyName == p.groupBy)))
    · simp only [getGroupedRows, hgb, Bool.false_eq_true, if_false] at hg
      obtain ⟨k, -, rfl⟩ := List.mem_map.mp hg
      exact List.filter_sublist _
    · simp only [getGroupedRows, hgb, if_true] at hg
      rcases List.mem_singleton.mp hg with rfl
      exact List.Sublist.refl _
  · cases hsb : (p.sortBy == "")
    · have hkey : sortByKey p.sortBy ≠ "" := by
        rcases h with h1 | h1
        · exact absurd (by simpa using h1 : (p.sortBy == "") = true) (by simp [hsb])
        · exact h1
      have hkb : (sortByKey p.sortBy == "") = false := by simpa using hkey
      simp only [getSortedRows, specSortStage, hsb, Bool.false_eq_true, if_false, hkb]
    · simp only [getSortedRows, specSortStage, hsb, if_true]

/-- Witness for `view_pipeline` at concrete inputs. -/
theorem view_pipeline_witness :
    (((getGroupedRows viewCols [viewRow] viewParamsGood).map Prod.snd).flatten).Perm
        (getSortedRows viewCols [viewRow] viewParamsGood)
    ∧ getSortedRows viewCols [viewRow] viewParamsGood
        = specSortStage viewCols viewParamsGood
            (getFilteredRows viewCols [viewRow] viewParamsGood) :=
  ⟨(view_pipeline viewCols [viewRow] viewParamsGood (Or.inr (by decide))).1,
   (view_pipeline viewCols [viewRow] viewParamsGood (Or.inr (by decide))).2.2⟩

end NotionWidget
